import Mathlib

/-!
Verification of the `view.py` analysis script of the mnist-nengo repository.

The script has two pipelines: a static classifier error computation
(`_propup_static`, `compute_static_error`) and a spiking-run windowed error
computation (`compute_spiking_error`), dispatched from `__main__` by the keys
present in the loaded archive.

Modelling conventions:
* Real (NumPy float) arithmetic is modelled over `ℚ`; the inputs exercised by
  the properties below stay away from halfway rounding cases and float
  representation corners.
* NumPy arrays are modelled as a shape together with the flat data
  (`NDArr`); 2-D matrices used by the static pipeline are plain
  `List (List ℚ)` row lists.
* Failures (assertion errors, `IndexError`, `ZeroDivisionError`,
  `ValueError`) are modelled by `Except` / `Option` results.
* Slicing an array with a *float* index, as `view.py` line 76 does with
  `[:, -check_time:]`, follows the legacy NumPy behaviour of truncating the
  float towards zero (`int(-0.05) = 0`); modern NumPy raises instead, and
  either way the unused `check_len` variable in the source shows the slice
  was meant to use `check_len`.
-/

/-- A NumPy ndarray: its shape and its flat data.  `ndim` is the length of
the shape, `size` the length of the data. -/
structure NDArr where
  shape : List ℕ
  data : List ℚ
deriving Repr

/-- Python's `round` (to nearest integer) as used on `pres_time / dt`;
halfway cases do not arise for the inputs considered. -/
def pyRound (q : ℚ) : ℤ := ⌊q + 1/2⌋

/-- Truncation toward zero, the legacy NumPy conversion of a float slice
index to an integer. -/
def pyTrunc (q : ℚ) : ℤ := if 0 ≤ q then ⌊q⌋ else ⌈q⌉

/-- Python slice `xs[s:]` where `s` is a float slice start (legacy NumPy
truncation semantics, with the usual negative-index and clamping rules). -/
def npSliceFrom (s : ℚ) (xs : List α) : List α :=
  let i : ℤ := pyTrunc s
  let start : ℕ := if i < 0 then ((xs.length : ℤ) + i).toNat else min i.toNat xs.length
  xs.drop start

/-- `np.mean` of a 1-D array.  (On an empty list NumPy produces `nan`; the
`ℚ` model yields `0`.  No property below evaluates the empty case.) -/
def npMean (xs : List ℚ) : ℚ := xs.sum / xs.length

/-- `reshape(-1, k)` of a flat array: row `i` holds elements
`i*k, …, i*k + k - 1`. -/
def reshapeRows (k : ℕ) (xs : List α) : List (List α) :=
  (List.range (xs.length / k)).map (fun i => (xs.drop (i * k)).take k)

/-- The first assertion of `compute_spiking_error` (view.py line 64):
`test.ndim == 1 or test.ndim == 2 and test.shape[1] == 1`. -/
def ndim_ok (test : NDArr) : Bool :=
  test.shape.length == 1 || (test.shape.length == 2 && test.shape.getD 1 0 == 1)

/-- `dt = float(t[1] - t[0])` (view.py line 65). -/
def sample_dt (t : List ℚ) : ℚ := t.getD 1 0 - t.getD 0 0

/-- `pres_len = int(round(pres_time / dt))` (view.py line 66). -/
def pres_len_of (t : List ℚ) (pres_time : ℚ) : ℤ := pyRound (pres_time / sample_dt t)

/-- `check_len = int(round(check_time / dt))` (view.py line 67) — computed by
the source and then never used. -/
def check_len_of (t : List ℚ) (check_time : ℚ) : ℤ := pyRound (check_time / sample_dt t)

/-- The ways `compute_spiking_error` can fail. -/
inductive SpikingFail where
  /-- the `ndim` assertion at view.py line 64 fires -/
  | assertNdim
  /-- the divisibility assertion at view.py line 69 fires -/
  | assertMod
  /-- an index error: `t[1]` on a too-short time axis, or
  `reshape(-1, pres_len)` with a nonpositive row length -/
  | indexError
  /-- division by zero: `dt = 0`, or `test.size % 0` when `pres_len = 0` -/
  | zeroDiv
deriving Repr, DecidableEq

instance {ε α : Type} [DecidableEq ε] [DecidableEq α] : DecidableEq (Except ε α) := fun a b =>
  match a, b with
  | .ok x, .ok y => if h : x = y then isTrue (by rw [h]) else isFalse (by simp [h])
  | .error x, .error y => if h : x = y then isTrue (by rw [h]) else isFalse (by simp [h])
  | .ok _, .error _ => isFalse (by simp)
  | .error _, .ok _ => isFalse (by simp)

/-- The dead zero-padding branch body of `compute_spiking_error`
(view.py lines 70-73): `test_pad = np.zeros(test.size / pres_len + 1)`,
`test_pad[:test.size] = test`.  Unreachable (see the C5 theorem), so its
rendering is irrelevant to every reachable result. -/
def padDead (xs : List ℚ) (pres_len : ℤ) : List ℚ :=
  let n : ℕ := ((xs.length : ℤ) / pres_len + 1).toNat
  (xs ++ List.replicate n 0).take n

/-- `compute_spiking_error(t, test, pres_time, check_time=0.05, cutoff=0.5)`
(view.py lines 63-78).  Source defaults `check_time = 1/20`, `cutoff = 1/2`
are passed explicitly by callers below.  Note that line 76 slices with the
float `check_time`, not `check_len`: under legacy NumPy truncation
`-check_time` becomes the integer `0` whenever `0 < check_time < 1`, so the
whole window is averaged. -/
def compute_spiking_error (t : List ℚ) (test : NDArr) (pres_time check_time cutoff : ℚ) :
    Except SpikingFail (List Bool) :=
  if ndim_ok test = false then .error .assertNdim
  else if t.length < 2 then .error .indexError
  else if sample_dt t = 0 then .error .zeroDiv
  else if pres_len_of t pres_time = 0 then .error .zeroDiv
  else if (test.data.length : ℤ) % pres_len_of t pres_time ≠ 0 then .error .assertMod
  else if pres_len_of t pres_time < 0 then .error .indexError
  else
    .ok ((reshapeRows (pres_len_of t pres_time).toNat
        (if (test.data.length : ℤ) % pres_len_of t pres_time ≠ 0
         then padDead test.data (pres_len_of t pres_time)
         else test.data)).map
      (fun b => decide (npMean (npSliceFrom (-check_time) b) < cutoff)))

/-- Modelled from the spec: "for each window, look at a trailing sub-window
(a fixed default duration, e.g. 50ms) and mark the window as an error when
the mean of the trailing sub-window is below a cutoff"; the trailing
sub-window is the last `check_len = round(check_time/dt)` samples of the
window. -/
def spec_trailing_errors (t : List ℚ) (test : NDArr) (pres_time check_time cutoff : ℚ) :
    List Bool :=
  (reshapeRows (pres_len_of t pres_time).toNat test.data).map
    (fun b => decide (npMean (b.drop (b.length - (check_len_of t check_time).toNat)) < cutoff))

/-- A 100-sample correctness signal: 95 zeros followed by 5 ones.  With
`pres_time = 1`, `dt = 1/100` it is a single presentation window. -/
def c1sig : NDArr := ⟨[100], List.replicate 95 0 ++ List.replicate 5 1⟩

/-- `compute_spiking_error` with the body of the dead zero-padding branch
(view.py lines 70-73) removed: the argument of `reshape` is always the
original flat data.  Compared with `compute_spiking_error` itself by the C5
theorem. -/
def compute_spiking_error_nopad (t : List ℚ) (test : NDArr) (pres_time check_time cutoff : ℚ) :
    Except SpikingFail (List Bool) :=
  if ndim_ok test = false then .error .assertNdim
  else if t.length < 2 then .error .indexError
  else if sample_dt t = 0 then .error .zeroDiv
  else if pres_len_of t pres_time = 0 then .error .zeroDiv
  else if (test.data.length : ℤ) % pres_len_of t pres_time ≠ 0 then .error .assertMod
  else if pres_len_of t pres_time < 0 then .error .indexError
  else
    .ok ((reshapeRows (pres_len_of t pres_time).toNat test.data).map
      (fun b => decide (npMean (npSliceFrom (-check_time) b) < cutoff)))

/-- Whether a `compute_spiking_error` outcome is an `assert` failure (as
opposed to success or one of the other Python exceptions). -/
def isAssertFail : Except SpikingFail (List Bool) → Bool
  | .error .assertNdim => true
  | .error .assertMod => true
  | _ => false

/-- A 2-D array as a list of rows. -/
abbrev Mat := List (List ℚ)

/-- Number of columns a `np.dot` product with this right factor has (the
length of the first row). -/
def matCols (w : Mat) : ℕ := (w.headD []).length

/-- `np.dot(x, w)` for 2-D `x` and `w`: entry `(i, j)` is the dot product
of row `i` of `x` with column `j` of `w`.  (Shape agreement between the
rows of `x` and `w` is a hypothesis of the theorems that need it.) -/
def npDot (x w : Mat) : Mat :=
  x.map (fun r => (List.range (matCols w)).map
    (fun j => (List.zipWith (fun a row => a * row.getD j 0) r w).sum))

/-- Broadcast addition of a bias row vector to every row of a matrix. -/
def addBias (m : Mat) (b : List ℚ) : Mat :=
  m.map (fun r => List.zipWith (· + ·) r b)

/-- Elementwise application of the neuron nonlinearity. -/
def mapMat (f : ℚ → ℚ) (m : Mat) : Mat := m.map (fun r => r.map f)

/-- The static parameter archive: per-layer `weights` and `biases`, and the
classifier `Wc`/`bc` (view.py lines 15-18). -/
structure Params where
  weights : List Mat
  biases : List (List ℚ)
  Wc : Mat
  bc : List ℚ

/-- The `forward` loop of `_propup_static` (view.py lines 24-29): fold over
the zipped weight/bias pairs, applying the neuron function after each
affine layer and appending each activation to `layers`. -/
def forward (f : ℚ → ℚ) (x0 : Mat) (wbs : List (Mat × List ℚ)) : Mat × List Mat :=
  wbs.foldl (fun acc wb =>
    let x := mapMat f (addBias (npDot acc.1 wb.1) wb.2)
    (x, acc.2 ++ [x])) (x0, [])

/-- `_propup_static(params, images, neuron)` (view.py lines 14-33).  The
neuron registry lookup `neurons.get_numpy_fn` lives in the external
`neurons` module, so the resolved nonlinearity `f` is a parameter.
Returns `(layers, codes, yc)` with `yc = codes · Wc + bc`. -/
def _propup_static (p : Params) (images : Mat) (f : ℚ → ℚ) :
    List Mat × Mat × Mat :=
  ((forward f images (p.weights.zip p.biases)).2,
   (forward f images (p.weights.zip p.biases)).1,
   addBias (npDot (forward f images (p.weights.zip p.biases)).1 p.Wc) p.bc)

/-- Auxiliary scan for `np.argmax`: current index, best index so far, best
value so far; the strict comparison keeps the first maximal index, as
NumPy does. -/
def argmaxAux : List ℚ → ℕ → ℕ → ℚ → ℕ
  | [], _, bi, _ => bi
  | x :: rest, i, bi, bv =>
    if bv < x then argmaxAux rest (i+1) i x else argmaxAux rest (i+1) bi bv

/-- `np.argmax` of a 1-D array: the first index attaining the maximum.
(NumPy raises on an empty array; the model returns `0` there and
`compute_static_error` guards emptiness separately.) -/
def npArgmax : List ℚ → ℕ
  | [] => 0
  | x :: rest => argmaxAux rest 1 0 x

/-- Insertion into a sorted list of integers. -/
def insertSorted (x : ℤ) : List ℤ → List ℤ
  | [] => [x]
  | y :: ys => if x ≤ y then x :: y :: ys else y :: insertSorted x ys

/-- `np.unique(labels)`: the sorted sequence of distinct label values. -/
def npUnique (xs : List ℤ) : List ℤ := xs.dedup.foldr insertSorted []

/-- `compute_static_error(params, images, labels, neuron)` (view.py lines
36-41).  `np.argmax(yc, axis=1)` raises on an empty row, and the fancy
index `classes[inds]` raises when an arg-max index reaches past the number
of distinct labels; both failures are `none`. -/
def compute_static_error (p : Params) (images : Mat) (labels : List ℤ) (f : ℚ → ℚ) :
    Option (List Bool) :=
  if ((_propup_static p images f).2.2).any (fun r => r.isEmpty) then none
  else if (((_propup_static p images f).2.2).map npArgmax).all
      (fun i => decide (i < (npUnique labels).length)) = false then none
  else
    some (List.zipWith (fun l i => decide (l ≠ (npUnique labels).getD i 0))
      labels (((_propup_static p images f).2.2).map npArgmax))

/-- Modelled from the spec: "compute for each layer
`x_{i+1} = f(x_i · W_i + b_i)` starting from the raw images" — the
sequence of layer activations, written as the direct recursion of the
spec. -/
def specLayerSeq (f : ℚ → ℚ) (x : Mat) : List (Mat × List ℚ) → List Mat
  | [] => []
  | wb :: rest => mapMat f (addBias (npDot x wb.1) wb.2)
      :: specLayerSeq f (mapMat f (addBias (npDot x wb.1) wb.2)) rest

/-- Outcome of the `__main__` dispatch (view.py lines 164-206). -/
inductive LoadResult where
  /-- `IOError`: the load file does not exist (view.py line 165) -/
  | ioError
  /-- the static-parameter pipeline is entered (view.py lines 168-192) -/
  | staticRun
  /-- the spiking pipeline is entered (view.py lines 194-204) -/
  | spikingRun
  /-- `KeyError` from a `data[a]` lookup of a missing archive key -/
  | keyError (k : String)
  /-- `ValueError("Unrecognized load file type")` (view.py line 206) -/
  | valueError
deriving Repr, DecidableEq

/-- The static dispatch key set (view.py line 168). -/
def staticKeys : List String := ["weights", "biases", "Wc", "bc"]

/-- The spiking dispatch key set (view.py line 194). -/
def spikingDispatchKeys : List String := ["t", "classifier", "test"]

/-- Keys looked up to call `compute_spiking_error` (view.py line 198). -/
def spikingErrorArgKeys : List String := ["t", "test", "pres_time"]

/-- Keys looked up to call `view_spiking` (view.py lines 202-203). -/
def spikingViewArgKeys : List String :=
  ["t", "images", "labels", "classifier", "test", "pres_time"]

/-- The `__main__` dispatch at the level of archive keys: missing file →
`IOError`; static key set present → static pipeline; else if the spiking
dispatch keys are present, the `data[a]` dict-comprehension lookups raise
`KeyError` at the first missing key; otherwise `ValueError`. -/
def mainDispatch (fileExists : Bool) (keys : List String) : LoadResult :=
  if fileExists = false then .ioError
  else if staticKeys.all (fun a => keys.contains a) then .staticRun
  else if spikingDispatchKeys.all (fun a => keys.contains a) then
    match spikingErrorArgKeys.find? (fun a => ! keys.contains a) with
    | some k => .keyError k
    | none =>
      match spikingViewArgKeys.find? (fun a => ! keys.contains a) with
      | some k => .keyError k
      | none => .spikingRun
  else .valueError

/-- C1: for every 1-D correctness signal, `compute_spiking_error` marks a
window as an error exactly when the mean of the TRAILING sub-window of
duration `check_time` is below the cutoff; with `pres_time = 1`, `dt = 1/100`
and `check_time = 1/20`, exactly the last 5 samples of each window would be
inspected.  The code instead slices `[:, -check_time:]` with the float
`check_time` (the computed `check_len` is never used), so the whole
100-sample window is averaged: on a window of 95 zeros then 5 ones, the
trailing 5-sample mean is `1 ≥ 1/2` (no error, as the claim requires), but
the code averages `5/100 < 1/2` and reports an error. -/
theorem compute_spiking_error_uses_check_time_not_check_len :
    compute_spiking_error [0, 1/100] c1sig 1 (1/20) (1/2) = .ok [true]
    ∧ spec_trailing_errors [0, 1/100] c1sig 1 (1/20) (1/2) = [false]
    ∧ check_len_of [0, 1/100] (1/20) = 5 := by
  have hdata : c1sig.data = List.replicate 95 0 ++ List.replicate 5 1 := rfl
  have hdt : sample_dt [0, 1/100] = 1/100 := by norm_num [sample_dt, List.getD]
  have hpl : pres_len_of [0, 1/100] 1 = 100 := by
    rw [pres_len_of, hdt, pyRound]; norm_num
  have hcl : check_len_of [0, 1/100] (1/20) = 5 := by
    rw [check_len_of, hdt, pyRound]; norm_num
  have hlen : c1sig.data.length = 100 := by rw [hdata]; simp
  have hresh : reshapeRows 100 c1sig.data = [c1sig.data] := by
    rw [reshapeRows, hlen]
    have h1 : (100:ℕ)/100 = 1 := by norm_num
    rw [h1, (by decide : List.range 1 = [0]), List.map_cons, List.map_nil]
    norm_num
    exact hlen.le
  have hslice : npSliceFrom (-(1/20)) c1sig.data = c1sig.data := by
    have h0 : pyTrunc (-(1/20)) = 0 := by
      rw [pyTrunc, if_neg (by norm_num)]
      norm_num
    rw [npSliceFrom]
    simp only [h0]
    norm_num
  have hsum : c1sig.data.sum = 5 := by
    rw [hdata]
    simp [List.sum_replicate]
    norm_num
  have hmean : npMean c1sig.data = 1/20 := by
    rw [npMean, hlen, hsum]; norm_num
  have hpln : (pres_len_of [0, 1/100] 1).toNat = 100 := by rw [hpl]; decide
  have hcln : (check_len_of [0, 1/100] (1/20)).toNat = 5 := by rw [hcl]; decide
  have hmod : ¬ ((c1sig.data.length : ℤ) % pres_len_of [0, 1/100] 1 ≠ 0) := by
    rw [hlen, hpl]; decide
  refine ⟨?_, ?_, hcl⟩
  · rw [compute_spiking_error]
    rw [if_neg (by decide : ¬ (ndim_ok c1sig = false))]
    rw [if_neg (by decide : ¬ ([(0:ℚ), 1/100].length < 2))]
    rw [if_neg (show ¬ (sample_dt [0, 1/100] = 0) by rw [hdt]; norm_num)]
    rw [if_neg (show ¬ (pres_len_of [0, 1/100] 1 = 0) by rw [hpl]; norm_num)]
    rw [if_neg hmod]
    rw [if_neg (show ¬ (pres_len_of [0, 1/100] 1 < 0) by rw [hpl]; decide)]
    rw [if_neg hmod]
    rw [hpln, hresh]
    simp only [List.map_cons, List.map_nil, hslice, hmean]
    norm_num
  · rw [spec_trailing_errors, hpln, hcln, hresh]
    simp only [List.map_cons, List.map_nil, hlen]
    have h95 : (100:ℕ) - 5 = 95 := by norm_num
    rw [h95, hdata]
    have htail : (List.replicate 95 (0:ℚ) ++ List.replicate 5 1).drop 95 = List.replicate 5 1 := by
      simp
    rw [htail]
    have hm5 : npMean (List.replicate 5 (1:ℚ)) = 1 := by
      rw [npMean]
      simp [List.sum_replicate]
      norm_num
    rw [hm5]
    norm_num [decide_eq_false_iff_not]

/-- Divisibility reading of the assertion `test.size % pres_len == 0` for a
nonnegative window length. -/
theorem natCast_emod_eq_zero_iff (n : ℕ) (k : ℤ) (hk : 0 ≤ k) :
    (n : ℤ) % k = 0 ↔ k.toNat ∣ n := by
  constructor
  · intro h
    have hd : k ∣ (n : ℤ) := Int.dvd_of_emod_eq_zero h
    rw [← Int.toNat_of_nonneg hk] at hd
    exact_mod_cast hd
  · intro h
    apply Int.emod_eq_zero_of_dvd
    rw [← Int.toNat_of_nonneg hk]
    exact_mod_cast h

/-- Shape of the result of `compute_spiking_error` on the success path. -/
theorem compute_spiking_error_ok (t : List ℚ) (test : NDArr) (pres_time check_time cutoff : ℚ)
    (h1 : ndim_ok test = true) (h2 : 2 ≤ t.length) (h3 : sample_dt t ≠ 0)
    (h4 : 1 ≤ pres_len_of t pres_time)
    (h5 : (test.data.length : ℤ) % pres_len_of t pres_time = 0) :
    compute_spiking_error t test pres_time check_time cutoff =
      .ok ((reshapeRows (pres_len_of t pres_time).toNat test.data).map
        (fun b => decide (npMean (npSliceFrom (-check_time) b) < cutoff))) := by
  rw [compute_spiking_error]
  rw [if_neg (by simp [h1])]
  rw [if_neg (by omega)]
  rw [if_neg h3]
  rw [if_neg (by omega)]
  rw [if_neg (by simp [h5])]
  rw [if_neg (by omega)]
  rw [if_neg (by simp [h5])]

/-- Inversion: a successful `compute_spiking_error` result is the mapped
block means of the unpadded data. -/
theorem compute_spiking_error_ok_inv (t : List ℚ) (test : NDArr)
    (pres_time check_time cutoff : ℚ) (es : List Bool)
    (h : compute_spiking_error t test pres_time check_time cutoff = .ok es) :
    es = (reshapeRows (pres_len_of t pres_time).toNat test.data).map
      (fun b => decide (npMean (npSliceFrom (-check_time) b) < cutoff)) := by
  rw [compute_spiking_error] at h
  by_cases h1 : ndim_ok test = false
  · rw [if_pos h1] at h; exact Except.noConfusion h
  rw [if_neg h1] at h
  by_cases h2 : t.length < 2
  · rw [if_pos h2] at h; exact Except.noConfusion h
  rw [if_neg h2] at h
  by_cases h3 : sample_dt t = 0
  · rw [if_pos h3] at h; exact Except.noConfusion h
  rw [if_neg h3] at h
  by_cases h4 : pres_len_of t pres_time = 0
  · rw [if_pos h4] at h; exact Except.noConfusion h
  rw [if_neg h4] at h
  by_cases h5 : (test.data.length : ℤ) % pres_len_of t pres_time ≠ 0
  · rw [if_pos h5] at h; exact Except.noConfusion h
  rw [if_neg h5] at h
  by_cases h6 : pres_len_of t pres_time < 0
  · rw [if_pos h6] at h; exact Except.noConfusion h
  rw [if_neg h6, if_neg h5] at h
  exact (Except.ok.inj h).symm

/-- C5: the zero-padding branch inside `compute_spiking_error` is
unreachable: on every input the function coincides with the variant whose
padding branch body has been removed, because the guard
`test.size % pres_len != 0` sits directly under the assertion
`test.size % pres_len == 0`. -/
theorem spiking_dead_padding_branch_unreachable (t : List ℚ) (test : NDArr)
    (pres_time check_time cutoff : ℚ) :
    compute_spiking_error t test pres_time check_time cutoff
      = compute_spiking_error_nopad t test pres_time check_time cutoff := by
  rw [compute_spiking_error, compute_spiking_error_nopad]
  by_cases h1 : ndim_ok test = false
  · rw [if_pos h1, if_pos h1]
  rw [if_neg h1, if_neg h1]
  by_cases h2 : t.length < 2
  · rw [if_pos h2, if_pos h2]
  rw [if_neg h2, if_neg h2]
  by_cases h3 : sample_dt t = 0
  · rw [if_pos h3, if_pos h3]
  rw [if_neg h3, if_neg h3]
  by_cases h4 : pres_len_of t pres_time = 0
  · rw [if_pos h4, if_pos h4]
  rw [if_neg h4, if_neg h4]
  by_cases h5 : (test.data.length : ℤ) % pres_len_of t pres_time ≠ 0
  · rw [if_pos h5, if_pos h5]
  rw [if_neg h5, if_neg h5, if_neg h5]

/-- C3: `compute_spiking_error` fails with an assertion exactly when its
precondition is violated — when the signal is neither 1-D nor 2-D with one
column, or when `test.size` is not an exact multiple of the window length
`round(pres_time/dt)`; when both preconditions hold, neither assertion
fires.  Side conditions: the time axis has at least two samples (else
`t[1]` is an `IndexError`, not an assertion) and the window length is at
least one (else `test.size % 0` is a `ZeroDivisionError`). -/
theorem compute_spiking_error_assert_iff (t : List ℚ) (test : NDArr)
    (pres_time check_time cutoff : ℚ)
    (ht : 2 ≤ t.length) (hk : 1 ≤ pres_len_of t pres_time) :
    isAssertFail (compute_spiking_error t test pres_time check_time cutoff) = true
      ↔ ¬ (ndim_ok test = true ∧ (pres_len_of t pres_time).toNat ∣ test.data.length) := by
  have h3 : sample_dt t ≠ 0 := by
    intro h
    rw [pres_len_of, h, div_zero, pyRound] at hk
    norm_num at hk
  by_cases h1 : ndim_ok test = true
  · by_cases h5 : (pres_len_of t pres_time).toNat ∣ test.data.length
    · rw [compute_spiking_error_ok t test pres_time check_time cutoff h1 ht h3 hk
        ((natCast_emod_eq_zero_iff _ _ (by omega)).mpr h5)]
      simp [isAssertFail, h1, h5]
    · have hmod : (test.data.length : ℤ) % pres_len_of t pres_time ≠ 0 := by
        intro h
        exact h5 ((natCast_emod_eq_zero_iff _ _ (by omega)).mp h)
      rw [compute_spiking_error]
      rw [if_neg (by simp [h1]), if_neg (by omega), if_neg h3, if_neg (by omega), if_pos hmod]
      simp [isAssertFail, h1, h5]
  · rw [compute_spiking_error, if_pos (by simpa using h1)]
    simp [isAssertFail, h1]

/-- C9: every successful `compute_spiking_error` result has one entry per
presentation window: its length is `test.size / pres_len`. -/
theorem compute_spiking_error_one_entry_per_window (t : List ℚ) (test : NDArr)
    (pres_time check_time cutoff : ℚ) (es : List Bool)
    (h : compute_spiking_error t test pres_time check_time cutoff = .ok es) :
    es.length = test.data.length / (pres_len_of t pres_time).toNat := by
  rw [compute_spiking_error_ok_inv t test pres_time check_time cutoff es h]
  simp [reshapeRows]

/-- With the default `check_time = 1/20`, the float slice start truncates to
`0`, so the "trailing" slice is the whole window. -/
theorem npSliceFrom_default_check (xs : List ℚ) : npSliceFrom (-(1/20)) xs = xs := by
  have h0 : pyTrunc (-(1/20)) = 0 := by
    rw [pyTrunc, if_neg (by norm_num)]
    norm_num
  rw [npSliceFrom]
  simp only [h0]
  norm_num

/-- Reshaping a constant signal yields constant rows. -/
theorem reshapeRows_replicate (k n : ℕ) (c : ℚ) (hdvd : k ∣ n) :
    reshapeRows k (List.replicate n c) = List.replicate (n / k) (List.replicate k c) := by
  rw [reshapeRows, List.length_replicate]
  apply List.ext_getElem
  · simp
  · intro i h1 h2
    simp only [List.getElem_map, List.getElem_range, List.getElem_replicate]
    rw [List.drop_replicate, List.take_replicate]
    congr 1
    have hi : i < n / k := by simpa using h1
    have hik : i * k + k ≤ n := by
      calc i * k + k = (i + 1) * k := by ring
        _ ≤ (n / k) * k := Nat.mul_le_mul_right k (Nat.succ_le_of_lt hi)
        _ = n := Nat.div_mul_cancel hdvd
    generalize i * k = m at hik ⊢
    omega

/-- The mean of a nonempty constant signal is its constant value. -/
theorem npMean_replicate (k : ℕ) (c : ℚ) (hk : 1 ≤ k) : npMean (List.replicate k c) = c := by
  rw [npMean, List.sum_replicate, List.length_replicate, nsmul_eq_mul]
  have hk0 : (k : ℚ) ≠ 0 := Nat.cast_ne_zero.mpr (by omega)
  field_simp

/-- `compute_spiking_error` on a constant flat signal, with default
`check_time` and `cutoff`: one entry per window, each comparing the
constant against the cutoff. -/
theorem spiking_const_signal (t : List ℚ) (pres_time : ℚ) (n : ℕ) (c : ℚ)
    (ht : 2 ≤ t.length) (hk : 1 ≤ pres_len_of t pres_time)
    (hdvd : (pres_len_of t pres_time).toNat ∣ n) :
    compute_spiking_error t ⟨[n], List.replicate n c⟩ pres_time (1/20) (1/2)
      = .ok (List.replicate (n / (pres_len_of t pres_time).toNat) (decide (c < 1/2))) := by
  have h3 : sample_dt t ≠ 0 := by
    intro h
    rw [pres_len_of, h, div_zero, pyRound] at hk
    norm_num at hk
  have h1 : ndim_ok ⟨[n], List.replicate n c⟩ = true := by
    rw [ndim_ok]; simp
  have hmod : ((NDArr.mk [n] (List.replicate n c)).data.length : ℤ)
      % pres_len_of t pres_time = 0 := by
    have hlen : (NDArr.mk [n] (List.replicate n c)).data.length = n := by simp
    rw [hlen]
    exact (natCast_emod_eq_zero_iff _ _ (by omega)).mpr hdvd
  rw [compute_spiking_error_ok t _ pres_time (1/20) (1/2) h1 ht h3 hk hmod]
  congr 1
  show ((reshapeRows (pres_len_of t pres_time).toNat (List.replicate n c)).map
    (fun b => decide (npMean (npSliceFrom (-(1/20)) b) < 1/2))) = _
  rw [reshapeRows_replicate _ n c hdvd, List.map_replicate]
  show List.replicate _ (decide (npMean (npSliceFrom (-(1/20))
    (List.replicate (pres_len_of t pres_time).toNat c)) < 1/2)) = _
  rw [npSliceFrom_default_check, npMean_replicate _ c (by omega)]

/-- C4: on an all-ones correctness signal whose window length divides its
size, `compute_spiking_error` (default cutoff `1/2`) returns all-`False`;
on an all-zeros signal it returns all-`True`. -/
theorem compute_spiking_error_ones_zeros (t : List ℚ) (pres_time : ℚ) (n : ℕ)
    (ht : 2 ≤ t.length) (hk : 1 ≤ pres_len_of t pres_time)
    (hdvd : (pres_len_of t pres_time).toNat ∣ n) :
    compute_spiking_error t ⟨[n], List.replicate n 1⟩ pres_time (1/20) (1/2)
      = .ok (List.replicate (n / (pres_len_of t pres_time).toNat) false)
    ∧ compute_spiking_error t ⟨[n], List.replicate n 0⟩ pres_time (1/20) (1/2)
      = .ok (List.replicate (n / (pres_len_of t pres_time).toNat) true) := by
  have hf : decide ((1:ℚ) < 1/2) = false := by norm_num
  have htr : decide ((0:ℚ) < 1/2) = true := by norm_num
  constructor
  · rw [spiking_const_signal t pres_time n 1 ht hk hdvd, hf]
  · rw [spiking_const_signal t pres_time n 0 ht hk hdvd, htr]

/-- The time axis used for concrete spiking-side instances below has
`dt = 1/100`; with `pres_time = 1/20` the window is 5 samples long. -/
theorem pres_len_t0 : pres_len_of [0, 1/100] (1/20) = 5 := by
  have hdt : sample_dt [0, 1/100] = 1/100 := by norm_num [sample_dt, List.getD]
  rw [pres_len_of, hdt, pyRound]
  norm_num

/-- Witness for C3 at a concrete input: a 7-sample signal is not a multiple
of the 5-sample window, and the assertion fires. -/
theorem compute_spiking_error_assert_iff_witness :
    (2 ≤ [(0:ℚ), 1/100].length ∧ 1 ≤ pres_len_of [0, 1/100] (1/20))
    ∧ (isAssertFail (compute_spiking_error [0, 1/100] (NDArr.mk [7] (List.replicate 7 1))
        (1/20) (1/20) (1/2)) = true
      ↔ ¬ (ndim_ok (NDArr.mk [7] (List.replicate 7 1)) = true
        ∧ (pres_len_of [0, 1/100] (1/20)).toNat
            ∣ (NDArr.mk [7] (List.replicate 7 1)).data.length)) :=
  ⟨⟨by norm_num, by rw [pres_len_t0]; decide⟩,
    compute_spiking_error_assert_iff [0, 1/100] (NDArr.mk [7] (List.replicate 7 1))
      (1/20) (1/20) (1/2) (by norm_num) (by rw [pres_len_t0]; decide)⟩

/-- Witness for C4 at a concrete input: a 10-sample signal, 5-sample
windows. -/
theorem compute_spiking_error_ones_zeros_witness :
    (2 ≤ [(0:ℚ), 1/100].length ∧ 1 ≤ pres_len_of [0, 1/100] (1/20)
      ∧ (pres_len_of [0, 1/100] (1/20)).toNat ∣ 10)
    ∧ compute_spiking_error [0, 1/100] ⟨[10], List.replicate 10 1⟩ (1/20) (1/20) (1/2)
      = .ok (List.replicate (10 / (pres_len_of [0, 1/100] (1/20)).toNat) false)
    ∧ compute_spiking_error [0, 1/100] ⟨[10], List.replicate 10 0⟩ (1/20) (1/20) (1/2)
      = .ok (List.replicate (10 / (pres_len_of [0, 1/100] (1/20)).toNat) true) := by
  have h1 : 1 ≤ pres_len_of [0, 1/100] (1/20) := by rw [pres_len_t0]; decide
  have h2 : (pres_len_of [0, 1/100] (1/20)).toNat ∣ 10 := by rw [pres_len_t0]; decide
  have h := compute_spiking_error_ones_zeros [0, 1/100] (1/20) 10 (by norm_num) h1 h2
  exact ⟨⟨by norm_num, h1, h2⟩, h.1, h.2⟩

/-- Witness for C9 at a concrete input: 10 samples in 5-sample windows give
an error vector of length 2. -/
theorem compute_spiking_error_one_entry_per_window_witness :
    compute_spiking_error [0, 1/100] (NDArr.mk [10] (List.replicate 10 1)) (1/20) (1/20) (1/2)
      = .ok (List.replicate 2 false)
    ∧ (List.replicate 2 false).length
      = (NDArr.mk [10] (List.replicate 10 1)).data.length
          / (pres_len_of [0, 1/100] (1/20)).toNat := by
  have h1 : 1 ≤ pres_len_of [0, 1/100] (1/20) := by rw [pres_len_t0]; decide
  have h2 : (pres_len_of [0, 1/100] (1/20)).toNat ∣ 10 := by rw [pres_len_t0]; decide
  have h := spiking_const_signal [0, 1/100] (1/20) 10 1 (by norm_num) h1 h2
  have h10 : (10 : ℕ) / (pres_len_of [0, 1/100] (1/20)).toNat = 2 := by
    rw [pres_len_t0]; decide
  have hf : decide ((1:ℚ) < 1/2) = false := by norm_num
  rw [h10, hf] at h
  exact ⟨h, compute_spiking_error_one_entry_per_window [0, 1/100]
    (NDArr.mk [10] (List.replicate 10 1)) (1/20) (1/20) (1/2) (List.replicate 2 false) h⟩

/-- The `forward` fold with a general accumulator produces the spec layer
sequence, with the final activation as first component. -/
theorem forward_foldl (f : ℚ → ℚ) (wbs : List (Mat × List ℚ)) (x : Mat) (ls : List Mat) :
    wbs.foldl (fun acc wb =>
        let y := mapMat f (addBias (npDot acc.1 wb.1) wb.2)
        (y, acc.2 ++ [y])) (x, ls)
      = ((specLayerSeq f x wbs).getLastD x, ls ++ specLayerSeq f x wbs) := by
  induction wbs generalizing x ls with
  | nil => simp [specLayerSeq]
  | cons wb rest ih =>
    rw [List.foldl_cons]
    show List.foldl _ (mapMat f (addBias (npDot x wb.1) wb.2),
      ls ++ [mapMat f (addBias (npDot x wb.1) wb.2)]) rest = _
    rw [ih]
    rw [specLayerSeq, List.getLastD_cons]
    simp

/-- `forward` returns the spec layer sequence together with its last
element (the raw images when there are no layers). -/
theorem forward_eq (f : ℚ → ℚ) (x0 : Mat) (wbs : List (Mat × List ℚ)) :
    forward f x0 wbs = ((specLayerSeq f x0 wbs).getLastD x0, specLayerSeq f x0 wbs) := by
  rw [forward, forward_foldl]
  simp

/-- C7: `_propup_static` computes the layer sequence
`x_{i+1} = f(x_i · W_i + b_i)` starting from the raw images, returns the
full sequence of layer activations, the final layer as the codes, and the
raw classifier scores `codes · Wc + bc`. -/
theorem propup_static_spec (p : Params) (images : Mat) (f : ℚ → ℚ) :
    (_propup_static p images f).1 = specLayerSeq f images (p.weights.zip p.biases)
    ∧ (_propup_static p images f).2.1 = ((_propup_static p images f).1).getLastD images
    ∧ (_propup_static p images f).2.2
      = addBias (npDot ((_propup_static p images f).2.1) p.Wc) p.bc := by
  rw [_propup_static, forward_eq]
  simp

/-- Every activation in the spec layer sequence has as many rows as the
input batch. -/
theorem specLayerSeq_length (f : ℚ → ℚ) (x : Mat) (wbs : List (Mat × List ℚ)) :
    ∀ m ∈ specLayerSeq f x wbs, m.length = x.length := by
  induction wbs generalizing x with
  | nil => simp [specLayerSeq]
  | cons wb rest ih =>
    intro m hm
    rw [specLayerSeq] at hm
    rcases List.mem_cons.mp hm with h | h
    · rw [h]
      simp [mapMat, addBias, npDot]
    · rw [ih (mapMat f (addBias (npDot x wb.1) wb.2)) m h]
      simp [mapMat, addBias, npDot]

/-- `getLastD` of a list of matrices that all have `n` rows, with an
`n`-row default, has `n` rows. -/
theorem getLastD_length {n : ℕ} (S : List Mat) (x0 : Mat) (h0 : x0.length = n)
    (h : ∀ m ∈ S, m.length = n) : (S.getLastD x0).length = n := by
  induction S generalizing x0 with
  | nil => exact h0
  | cons a l ih =>
    rw [List.getLastD_cons]
    exact ih a (h a (by simp)) (fun m hm => h m (by simp [hm]))

/-- The codes matrix has one row per image. -/
theorem propup_codes_length (p : Params) (images : Mat) (f : ℚ → ℚ) :
    (_propup_static p images f).2.1.length = images.length := by
  show (forward f images (p.weights.zip p.biases)).1.length = images.length
  rw [forward_eq]
  exact getLastD_length _ images rfl (specLayerSeq_length f images _)

/-- The classifier score matrix has one row per image. -/
theorem propup_yc_length (p : Params) (images : Mat) (f : ℚ → ℚ) :
    (_propup_static p images f).2.2.length = images.length := by
  show (addBias (npDot (forward f images (p.weights.zip p.biases)).1 p.Wc) p.bc).length
    = images.length
  rw [addBias, List.length_map, npDot, List.length_map]
  exact propup_codes_length p images f

/-- Each row of a `np.dot` product has one entry per column of the right
factor. -/
theorem npDot_row_length (x w : Mat) (r : List ℚ) (hr : r ∈ npDot x w) :
    r.length = matCols w := by
  rw [npDot] at hr
  simp only [List.mem_map] at hr
  obtain ⟨a, _, rfl⟩ := hr
  simp

/-- With a shape-consistent classifier (`Wc` columns match `bc`), every
classifier score row has `bc.size` entries. -/
theorem propup_yc_row_length (p : Params) (images : Mat) (f : ℚ → ℚ)
    (hshape : matCols p.Wc = p.bc.length) :
    ∀ r ∈ (_propup_static p images f).2.2, r.length = p.bc.length := by
  intro r hr
  have hdef : (_propup_static p images f).2.2
      = addBias (npDot (forward f images (p.weights.zip p.biases)).1 p.Wc) p.bc := rfl
  rw [hdef, addBias] at hr
  simp only [List.mem_map] at hr
  obtain ⟨r0, hr0, rfl⟩ := hr
  rw [List.length_zipWith, npDot_row_length _ p.Wc r0 hr0, hshape, min_self]

/-- The argmax scan stays below any bound that covers both the running
best index and the scanned range. -/
theorem argmaxAux_lt (l : List ℚ) (i bi : ℕ) (bv : ℚ) (N : ℕ)
    (hbi : bi < N) (hl : i + l.length ≤ N) : argmaxAux l i bi bv < N := by
  induction l generalizing i bi bv with
  | nil => exact hbi
  | cons x rest ih =>
    rw [argmaxAux]
    simp only [List.length_cons] at hl
    split
    · exact ih (i+1) i x (by omega) (by omega)
    · exact ih (i+1) bi bv hbi (by omega)

/-- `np.argmax` of a nonempty array is a valid index. -/
theorem npArgmax_lt (xs : List ℚ) (h : xs ≠ []) : npArgmax xs < xs.length := by
  cases xs with
  | nil => exact absurd rfl h
  | cons x rest =>
    rw [npArgmax, List.length_cons]
    exact argmaxAux_lt rest 1 0 x (rest.length + 1) (by omega) (by omega)

/-- If no scanned value beats the running best, the scan keeps the running
best index. -/
theorem argmaxAux_of_le (l : List ℚ) (i bi : ℕ) (bv : ℚ)
    (h : ∀ k, k < l.length → ¬ bv < l.getD k 0) : argmaxAux l i bi bv = bi := by
  induction l generalizing i with
  | nil => rfl
  | cons x rest ih =>
    rw [argmaxAux, if_neg (by simpa using h 0 (by simp))]
    exact ih (i+1) (fun k hk => by simpa using h (k+1) (by simpa using hk))

/-- If position `p` of the scanned list holds a strict maximum that also
beats the running best value, the scan lands on it. -/
theorem argmaxAux_strict (l : List ℚ) (p : ℕ) (hp : p < l.length)
    (hmax : ∀ k, k < l.length → k ≠ p → l.getD k 0 < l.getD p 0) :
    ∀ i bi bv, bv < l.getD p 0 → argmaxAux l i bi bv = i + p := by
  induction l generalizing p with
  | nil => simp at hp
  | cons x rest ih =>
    intro i bi bv hbv
    cases p with
    | zero =>
      rw [argmaxAux, if_pos (by simpa using hbv)]
      rw [argmaxAux_of_le rest (i+1) i x ?hle]
      · omega
      case hle =>
        intro k hk
        have hlt := hmax (k+1) (by simp; omega) (by omega)
        simp only [List.getD_cons_succ, List.getD_cons_zero] at hlt
        exact not_lt.mpr hlt.le
    | succ q =>
      have hq : q < rest.length := by simpa using hp
      have hmax' : ∀ k, k < rest.length → k ≠ q → rest.getD k 0 < rest.getD q 0 := by
        intro k hk hkq
        have := hmax (k+1) (by simp; omega) (by omega)
        simpa using this
      have hbv' : bv < rest.getD q 0 := by simpa using hbv
      have hx : x < rest.getD q 0 := by
        have := hmax 0 (by simp) (by omega)
        simpa using this
      rw [argmaxAux]
      by_cases hc : bv < x
      · rw [if_pos hc, ih q hq hmax' (i+1) i x hx]
        omega
      · rw [if_neg hc, ih q hq hmax' (i+1) bi bv hbv']
        omega

/-- `np.argmax` of an array whose position `j` holds a strict maximum
returns `j` (the first maximal index). -/
theorem npArgmax_strict (xs : List ℚ) (j : ℕ) (hj : j < xs.length)
    (hmax : ∀ k, k < xs.length → k ≠ j → xs.getD k 0 < xs.getD j 0) :
    npArgmax xs = j := by
  cases xs with
  | nil => simp at hj
  | cons x rest =>
    rw [npArgmax]
    cases j with
    | zero =>
      apply argmaxAux_of_le
      intro k hk
      have hlt := hmax (k+1) (by simp; omega) (by omega)
      simp only [List.getD_cons_succ, List.getD_cons_zero] at hlt
      exact not_lt.mpr hlt.le
    | succ q =>
      have hq : q < rest.length := by simpa using hj
      have hmax' : ∀ k, k < rest.length → k ≠ q → rest.getD k 0 < rest.getD q 0 := by
        intro k hk hkq
        have := hmax (k+1) (by simp; omega) (by omega)
        simpa using this
      have hx : x < rest.getD q 0 := by
        have := hmax 0 (by simp) (by omega)
        simpa using this
      rw [argmaxAux_strict rest q hq hmax' 1 0 x hx]
      omega

/-- `getD` of a `zipWith` at an index below both lengths. -/
theorem getD_zipWith_of_lt {α β γ : Type} (g : α → β → γ) (as : List α) (bs : List β)
    (i : ℕ) (d : γ) (da : α) (db : β) (ha : i < as.length) (hb : i < bs.length) :
    (List.zipWith g as bs).getD i d = g (as.getD i da) (bs.getD i db) := by
  induction as generalizing bs i with
  | nil => simp at ha
  | cons a as ih =>
    cases bs with
    | nil => simp at hb
    | cons b bs =>
      cases i with
      | zero => simp [List.zipWith]
      | succ n =>
        simpa using ih bs n (by simpa using ha) (by simpa using hb)

/-- `getD` of a `map` at an index below the length. -/
theorem getD_map_of_lt {α β : Type} (g : α → β) (l : List α)
    (i : ℕ) (d : β) (dl : α) (h : i < l.length) :
    (l.map g).getD i d = g (l.getD i dl) := by
  induction l generalizing i with
  | nil => simp at h
  | cons a l ih =>
    cases i with
    | zero => simp
    | succ n => simpa using ih n (by simpa using h)

/-- C2: when `compute_static_error` returns a vector, the vector has one
entry per image, and an entry is `True` exactly when the true label
differs from the sorted-unique label value selected by the arg-max
classifier index of that example. -/
theorem compute_static_error_spec (p : Params) (images : Mat) (labels : List ℤ)
    (f : ℚ → ℚ) (es : List Bool)
    (hlab : labels.length = images.length)
    (h : compute_static_error p images labels f = some es) :
    es.length = images.length
    ∧ ∀ i, i < es.length →
      (es.getD i false = true
        ↔ labels.getD i 0
          ≠ (npUnique labels).getD
              (npArgmax (((_propup_static p images f).2.2).getD i [])) 0) := by
  rw [compute_static_error] at h
  by_cases h1 : ((_propup_static p images f).2.2).any (fun r => r.isEmpty) = true
  · rw [if_pos h1] at h; exact Option.noConfusion h
  rw [if_neg h1] at h
  by_cases h2 : (((_propup_static p images f).2.2).map npArgmax).all
      (fun i => decide (i < (npUnique labels).length)) = false
  · rw [if_pos h2] at h; exact Option.noConfusion h
  rw [if_neg h2] at h
  have hes : es = List.zipWith (fun l i => decide (l ≠ (npUnique labels).getD i 0))
      labels (((_propup_static p images f).2.2).map npArgmax) := (Option.some.inj h).symm
  have hyc := propup_yc_length p images f
  have hlenz : es.length = images.length := by
    rw [hes, List.length_zipWith, List.length_map, hyc, hlab, min_self]
  refine ⟨hlenz, ?_⟩
  intro i hi
  have hiL : i < labels.length := by omega
  have hiY : i < ((_propup_static p images f).2.2).length := by omega
  have hiM : i < (((_propup_static p images f).2.2).map npArgmax).length := by
    rw [List.length_map]; omega
  rw [hes, getD_zipWith_of_lt _ labels _ i false 0 0 hiL hiM,
    getD_map_of_lt npArgmax _ i 0 [] hiY]
  simp

/-- Sorted insertion grows the length by one. -/
theorem length_insertSorted (x : ℤ) (l : List ℤ) :
    (insertSorted x l).length = l.length + 1 := by
  induction l with
  | nil => rfl
  | cons y ys ih =>
    rw [insertSorted]
    split
    · simp
    · simp [ih]

/-- `np.unique` of a nonempty label vector is nonempty. -/
theorem npUnique_length_pos (labels : List ℤ) (h : labels ≠ []) :
    0 < (npUnique labels).length := by
  rw [npUnique]
  have hd : labels.dedup ≠ [] := fun hnil => h ((List.dedup_eq_nil labels).mp hnil)
  cases hdd : labels.dedup with
  | nil => exact absurd hdd hd
  | cons a l =>
    rw [List.foldr_cons, length_insertSorted]
    omega

/-- C8: when the classifier perfectly separates the dataset — for each
example, the score at the index that maps to the true label is strictly
greater than every other score — `compute_static_error` returns an
all-`False` vector. -/
theorem compute_static_error_perfect (p : Params) (images : Mat) (labels : List ℤ)
    (f : ℚ → ℚ)
    (hlab : labels.length = images.length)
    (hsep : ∀ i, i < labels.length → ∃ j,
      j < (npUnique labels).length
      ∧ (npUnique labels).getD j 0 = labels.getD i 0
      ∧ j < (((_propup_static p images f).2.2).getD i []).length
      ∧ ∀ k, k < (((_propup_static p images f).2.2).getD i []).length → k ≠ j →
        (((_propup_static p images f).2.2).getD i []).getD k 0
          < (((_propup_static p images f).2.2).getD i []).getD j 0) :
    compute_static_error p images labels f = some (List.replicate labels.length false) := by
  have hyc := propup_yc_length p images f
  have hrow : ∀ i, i < labels.length →
      npArgmax (((_propup_static p images f).2.2).getD i []) < (npUnique labels).length
      ∧ (npUnique labels).getD
          (npArgmax (((_propup_static p images f).2.2).getD i [])) 0 = labels.getD i 0 := by
    intro i hi
    obtain ⟨j, hj1, hj2, hj3, hj4⟩ := hsep i hi
    rw [npArgmax_strict _ j hj3 hj4]
    exact ⟨hj1, hj2⟩
  have hne : ∀ r ∈ (_propup_static p images f).2.2, r.isEmpty = false := by
    intro r hr
    rw [List.mem_iff_getElem] at hr
    obtain ⟨n, hn, rfl⟩ := hr
    have hnl : n < labels.length := by omega
    obtain ⟨j, hj1, hj2, hj3, hj4⟩ := hsep n hnl
    rw [List.getD_eq_getElem _ _ hn] at hj3
    rcases hh : (_propup_static p images f).2.2[n] with _ | ⟨a, l⟩
    · rw [hh] at hj3; simp at hj3
    · rfl
  rw [compute_static_error]
  rw [if_neg ?hany]
  case hany =>
    intro hcontra
    rw [List.any_eq_true] at hcontra
    obtain ⟨r, hr, he⟩ := hcontra
    rw [hne r hr] at he
    exact Bool.noConfusion he
  rw [if_neg ?hall]
  case hall =>
    intro hcontra
    have hall2 : (((_propup_static p images f).2.2).map npArgmax).all
        (fun i => decide (i < (npUnique labels).length)) = true := by
      rw [List.all_eq_true]
      intro x hx
      rw [List.mem_map] at hx
      obtain ⟨r, hr, rfl⟩ := hx
      rw [List.mem_iff_getElem] at hr
      obtain ⟨n, hn, rfl⟩ := hr
      have hnl : n < labels.length := by omega
      have hb := (hrow n hnl).1
      rw [List.getD_eq_getElem _ _ hn] at hb
      simpa using hb
    rw [hall2] at hcontra
    exact Bool.noConfusion hcontra
  congr 1
  apply List.ext_getElem
  · simp only [List.length_zipWith, List.length_map, List.length_replicate, hyc, hlab,
      min_self]
  · intro i h1 h2
    rw [List.getElem_zipWith, List.getElem_map, List.getElem_replicate]
    have hiL : i < labels.length := by simpa using h2
    have hiY : i < ((_propup_static p images f).2.2).length := by omega
    have hval := (hrow i hiL).2
    rw [List.getD_eq_getElem _ _ hiY] at hval
    rw [hval, List.getD_eq_getElem _ _ hiL]
    simp

/-- C10: with the entry point's precondition that the number of distinct
labels equals `bc.size`, a shape-consistent classifier, and a nonempty
label vector, every arg-max index is below the number of distinct labels,
so the lookup `classes[inds]` stays in bounds and `compute_static_error`
returns a vector. -/
theorem compute_static_error_safe (p : Params) (images : Mat) (labels : List ℤ)
    (f : ℚ → ℚ)
    (hcls : (npUnique labels).length = p.bc.length)
    (hshape : matCols p.Wc = p.bc.length)
    (hlabne : labels ≠ []) :
    (∀ j ∈ ((_propup_static p images f).2.2).map npArgmax, j < (npUnique labels).length)
    ∧ ∃ es, compute_static_error p images labels f = some es := by
  have hbc : 0 < p.bc.length := hcls ▸ npUnique_length_pos labels hlabne
  have hrowlen := propup_yc_row_length p images f hshape
  have hmem : ∀ j ∈ ((_propup_static p images f).2.2).map npArgmax,
      j < (npUnique labels).length := by
    intro j hj
    rw [List.mem_map] at hj
    obtain ⟨r, hr, rfl⟩ := hj
    have hrl := hrowlen r hr
    have hrne : r ≠ [] := by
      intro hnil
      rw [hnil] at hrl
      simp at hrl
      omega
    have := npArgmax_lt r hrne
    omega
  refine ⟨hmem, ?_⟩
  rw [compute_static_error]
  rw [if_neg ?hany]
  case hany =>
    intro hcontra
    rw [List.any_eq_true] at hcontra
    obtain ⟨r, hr, he⟩ := hcontra
    have hrl := hrowlen r hr
    rw [List.isEmpty_iff] at he
    rw [he] at hrl
    simp at hrl
    omega
  rw [if_neg ?hall]
  case hall =>
    intro hcontra
    have hall2 : (((_propup_static p images f).2.2).map npArgmax).all
        (fun i => decide (i < (npUnique labels).length)) = true := by
      rw [List.all_eq_true]
      intro x hx
      simpa using hmem x hx
    rw [hall2] at hcontra
    exact Bool.noConfusion hcontra
  exact ⟨_, rfl⟩

/-- C6 counterexample: an archive holding exactly the dispatch keys `t`,
`classifier`, `test` is missing the schema-required `pres_time`; the entry
point selects the spiking pipeline and fails with a `KeyError`, not the
unrecognized-format `ValueError`. -/
theorem mainDispatch_missing_pres_time :
    mainDispatch true ["t", "classifier", "test"] = .keyError "pres_time"
    ∧ (LoadResult.keyError "pres_time" ≠ LoadResult.valueError) := by
  constructor
  · decide
  · decide

/-- C6 amended: the entry point raises the file-not-found error when the
path does not exist; among existing archives, the unrecognized-format
`ValueError` is raised exactly when the archive holds neither the full
static key set nor the spiking dispatch key set `t`, `classifier`, `test`
(an archive with those three dispatch keys but missing another
schema-required key fails later with a `KeyError` instead). -/
theorem mainDispatch_spec (keys : List String) :
    mainDispatch false keys = .ioError
    ∧ (mainDispatch true keys = .valueError
        ↔ staticKeys.all (fun a => keys.contains a) = false
          ∧ spikingDispatchKeys.all (fun a => keys.contains a) = false) := by
  constructor
  · rfl
  · rw [mainDispatch]
    rw [if_neg (by simp)]
    by_cases h1 : staticKeys.all (fun a => keys.contains a) = true
    · rw [if_pos h1]
      refine iff_of_false (by simp) ?_
      rintro ⟨ha, hb⟩
      rw [h1] at ha
      exact Bool.noConfusion ha
    · rw [if_neg h1]
      by_cases h2 : spikingDispatchKeys.all (fun a => keys.contains a) = true
      · rw [if_pos h2]
        constructor
        · intro hcontra
          exfalso
          rcases hfind : spikingErrorArgKeys.find? (fun a => ! keys.contains a) with _ | k
          · rw [hfind] at hcontra
            rcases hfind2 : spikingViewArgKeys.find? (fun a => ! keys.contains a) with _ | k2
            · rw [hfind2] at hcontra
              simp at hcontra
            · rw [hfind2] at hcontra
              simp at hcontra
          · rw [hfind] at hcontra
            simp at hcontra
        · rintro ⟨ha, hb⟩
          rw [h2] at hb
          exact Bool.noConfusion hb
      · rw [if_neg h2]
        simp only [Bool.not_eq_true] at h1 h2
        exact iff_of_true rfl ⟨h1, h2⟩

/-- The classifier scores of the concrete two-image instance used by the
C2 witness: no hidden layers, identity-like classifier. -/
theorem yc_eval_two (f2 : ℚ → ℚ) :
    (_propup_static (Params.mk [] [] [[1, 0], [0, 1]] [0, 0]) [[1, 0], [0, 1]] f2).2.2
      = [[1, 0], [0, 1]] := by
  show addBias (npDot [[1, 0], [0, 1]] [[1, 0], [0, 1]]) [0, 0] = [[1, 0], [0, 1]]
  norm_num [npDot, matCols, addBias, (by decide : List.range 2 = [0, 1])]

/-- Witness for C2 at a concrete input: two one-hot images, an identity
classifier, and deliberately crossed labels, so both entries are errors. -/
theorem compute_static_error_spec_witness :
    ([(4:ℤ), 3].length = ([[1, 0], [0, 1]] : Mat).length
      ∧ compute_static_error (Params.mk [] [] [[1, 0], [0, 1]] [0, 0]) [[1, 0], [0, 1]]
          [4, 3] (fun x => x) = some [true, true])
    ∧ ([true, true] : List Bool).length = ([[1, 0], [0, 1]] : Mat).length
    ∧ ∀ i, i < ([true, true] : List Bool).length →
      (([true, true] : List Bool).getD i false = true
        ↔ [(4:ℤ), 3].getD i 0
          ≠ (npUnique [4, 3]).getD
              (npArgmax (((_propup_static (Params.mk [] [] [[1, 0], [0, 1]] [0, 0])
                [[1, 0], [0, 1]] (fun x => x)).2.2).getD i [])) 0) := by
  have heval : compute_static_error (Params.mk [] [] [[1, 0], [0, 1]] [0, 0]) [[1, 0], [0, 1]]
      [4, 3] (fun x => x) = some [true, true] := by
    rw [compute_static_error, yc_eval_two, (by decide : npUnique [4, 3] = [3, 4])]
    decide
  have h := compute_static_error_spec (Params.mk [] [] [[1, 0], [0, 1]] [0, 0])
    [[1, 0], [0, 1]] [4, 3] (fun x => x) [true, true] (by decide) heval
  exact ⟨⟨by decide, heval⟩, h.1, h.2⟩

/-- The classifier scores of the concrete one-image instance used by the C8
witness. -/
theorem yc_eval_one (f2 : ℚ → ℚ) :
    (_propup_static (Params.mk [] [] [[1, 0], [0, 1]] [0, 0]) [[1, 0]] f2).2.2
      = [[1, 0]] := by
  show addBias (npDot [[1, 0]] [[1, 0], [0, 1]]) [0, 0] = [[1, 0]]
  norm_num [npDot, matCols, addBias, (by decide : List.range 2 = [0, 1])]

/-- Witness for C8 at a concrete input: one image whose classifier score at
the index of its true label strictly dominates, giving zero error. -/
theorem compute_static_error_perfect_witness :
    compute_static_error (Params.mk [] [] [[1, 0], [0, 1]] [0, 0]) [[1, 0]] [3] (fun x => x)
      = some (List.replicate ([(3:ℤ)].length) false) :=
  compute_static_error_perfect (Params.mk [] [] [[1, 0], [0, 1]] [0, 0]) [[1, 0]] [3]
    (fun x => x) (by decide)
    (by
      intro i hi
      have hi0 : i = 0 := by simp at hi; omega
      subst hi0
      rw [yc_eval_one]
      refine ⟨0, by decide, by decide, by decide, ?_⟩
      intro k hk hk0
      have hk1 : k = 1 := by
        simp at hk
        omega
      subst hk1
      decide)

/-- Witness for C10 at a concrete input: one distinct label, `bc.size = 1`,
shape-consistent classifier. -/
theorem compute_static_error_safe_witness :
    (∀ j ∈ ((_propup_static (Params.mk [] [] [[1]] [0]) [[2]] (fun x => x)).2.2).map npArgmax,
        j < (npUnique [7]).length)
    ∧ ∃ es, compute_static_error (Params.mk [] [] [[1]] [0]) [[2]] [7] (fun x => x)
        = some es :=
  compute_static_error_safe (Params.mk [] [] [[1]] [0]) [[2]] [7] (fun x => x)
    (by decide) (by decide) (by decide)
